import Mathlib

/-!
Verification of the Sequencer repository: a shallow embedding of
`src/sequencer.js` (the `BeatTimeline` and `Sequencer` objects) and
`src/noteSequence.js` (the `BasicNoteSequence` object), with theorems
checking the specified properties of the beat/time mapping, the
scheduling loop and the ordered note store.

Numbers that are JS floating-point values in the source are modelled as
exact rationals (the spec states the timeline laws over exact linear
arithmetic).  JS reference identity of note objects is modelled by a
numeric tag `nid` carried by each note, so that structural equality of
the model coincides with `===` on distinct objects.
-/

namespace Sequencer

/-- Embedding of `BeatTimeline` from `src/sequencer.js`: a linear mapping
between beat numbers and audio-clock timestamps, given by a tempo and one
reference (beat, time) pair. -/
structure BeatTimeline where
  beatsPerMinute : ℚ
  referenceBeat : ℚ
  referenceTime : ℚ
deriving DecidableEq

namespace BeatTimeline

/-- Embedding of `BeatTimeline.timeFor` (src/sequencer.js lines 174-179):
`referenceTime + (beatNumber - referenceBeat) * 60 / beatsPerMinute`. -/
def timeFor (T : BeatTimeline) (beatNumber : ℚ) : ℚ :=
  T.referenceTime + (beatNumber - T.referenceBeat) * 60 / T.beatsPerMinute

/-- Embedding of `BeatTimeline.beatFor` (src/sequencer.js lines 186-191):
`referenceBeat + (time - referenceTime) * beatsPerMinute / 60`. -/
def beatFor (T : BeatTimeline) (time : ℚ) : ℚ :=
  T.referenceBeat + (time - T.referenceTime) * T.beatsPerMinute / 60

/-- Embedding of `BeatTimeline.copyTimeShifted` (src/sequencer.js lines 204-213): a copy
with the same tempo and reference beat whose reference time is
`timeFor(referenceBeat + beatDelay) + timeDelay`. -/
def copyTimeShifted (T : BeatTimeline) (beatDelay timeDelay : ℚ) : BeatTimeline :=
  { beatsPerMinute := T.beatsPerMinute
    referenceBeat := T.referenceBeat
    referenceTime := T.timeFor (T.referenceBeat + beatDelay) + timeDelay }

/-- Embedding of `BeatTimeline.copyStartingAt` (src/sequencer.js lines 223-231): a copy
with the same tempo anchored at a fresh (time, beat) reference pair. -/
def copyStartingAt (T : BeatTimeline) (referenceTime referenceBeat : ℚ) : BeatTimeline :=
  { beatsPerMinute := T.beatsPerMinute
    referenceBeat := referenceBeat
    referenceTime := referenceTime }

/-- Embedding of `BeatTimeline.withTempo` (src/sequencer.js lines 241-249): a copy with
the new tempo, reference beat `fromBeat`, and reference time
`timeFor(fromBeat)` evaluated against the old timeline. -/
def withTempo (T : BeatTimeline) (newTempo fromBeat : ℚ) : BeatTimeline :=
  { beatsPerMinute := newTempo
    referenceBeat := fromBeat
    referenceTime := T.timeFor fromBeat }

end BeatTimeline

/-- Embedding of a note record (`createNote` in `src/note.js`; the note
objects handled by `BasicNoteSequence` in `src/noteSequence.js`).  The tag
`nid` models JS object identity: distinct objects carry distinct tags. -/
structure Note where
  start : ℚ
  length : ℚ
  number : ℤ
  nid : ℕ
deriving DecidableEq

/-- Embedding of `BasicNoteSequence.findPosition` (src/noteSequence.js lines 32-41): the
first index whose note's `start` is `≥ beat`, or the list length if none. -/
def findPosition (beat : ℚ) : List Note → ℕ
  | [] => 0
  | n :: ns => if beat ≤ n.start then 0 else findPosition beat ns + 1

/-- JS `Array.prototype.splice(position, 0, note)`: insert `note` at index
`position`. -/
def insertAt (l : List Note) (position : ℕ) (note : Note) : List Note :=
  l.take position ++ note :: l.drop position

/-- The list effect of `BasicNoteSequence.addNote` (src/noteSequence.js
lines 17-25): splice the note in at `findPosition(note.start)`. -/
def addNoteList (note : Note) (l : List Note) : List Note :=
  insertAt l (findPosition note.start l) note

/-- The list effect of `BasicNoteSequence.removeNote` (src/noteSequence.js
lines 62-68): `indexOf` + `splice(position, 1)` removes the first
occurrence of the note; an absent note leaves the list unchanged. -/
def removeNoteList : List Note → Note → List Note
  | [], _ => []
  | n :: ns, note => if n = note then ns else n :: removeNoteList ns note

/-- Embedding of `BasicNoteSequence.getNotes` (src/noteSequence.js lines 51-55):
`notes.slice(findPosition startBeat, findPosition endBeat)`. -/
def getNotes (startBeat endBeat : ℚ) (l : List Note) : List Note :=
  (l.drop (findPosition startBeat l)).take
    (findPosition endBeat l - findPosition startBeat l)

/-- State of a `BasicNoteSequence`: its note list together with the count
of `notifyListeners()` invocations (each registered listener is invoked
exactly once per `notifyListeners()` call, src/noteSequence.js lines
96-100, so `notifyCount` is the number of times each listener has been
invoked). -/
structure NoteSequenceState where
  notes : List Note
  notifyCount : ℕ
deriving DecidableEq

/-- Embedding of `BasicNoteSequence.notifyListeners` (src/noteSequence.js lines 96-100). -/
def notifyListeners (s : NoteSequenceState) : NoteSequenceState :=
  { s with notifyCount := s.notifyCount + 1 }

/-- Embedding of `createEmptyNoteSequence` (src/noteSequence.js lines 109-113). -/
def createEmptyNoteSequence : NoteSequenceState :=
  { notes := [], notifyCount := 0 }

/-- Embedding of `BasicNoteSequence.addNote` (src/noteSequence.js lines 17-25). -/
def addNote (s : NoteSequenceState) (note : Note) : NoteSequenceState :=
  notifyListeners { s with notes := addNoteList note s.notes }

/-- Embedding of `BasicNoteSequence.removeNote` (src/noteSequence.js lines 62-68):
splices the note out if present, then notifies unconditionally. -/
def removeNote (s : NoteSequenceState) (note : Note) : NoteSequenceState :=
  notifyListeners { s with notes := removeNoteList s.notes note }

/-- Embedding of `BasicNoteSequence.moveNote` (src/noteSequence.js lines 76-83): calls
`removeNote` (which itself notifies), computes the insertion position for
`newStart`, mutates the note's `start` and `number` in place, splices it
back in and notifies again. -/
def moveNote (s : NoteSequenceState) (note : Note) (newStart : ℚ) (newPitch : ℤ) :
    NoteSequenceState :=
  let s1 := removeNote s note
  let newPosition := findPosition newStart s1.notes
  let moved : Note := { note with start := newStart, number := newPitch }
  notifyListeners { s1 with notes := insertAt s1.notes newPosition moved }

/-- A mutation of a `BasicNoteSequence`. -/
inductive NSOp where
  | add (note : Note)
  | remove (note : Note)
  | move (note : Note) (newStart : ℚ) (newPitch : ℤ)

/-- Apply one mutation. -/
def applyOp (s : NoteSequenceState) : NSOp → NoteSequenceState
  | .add n => addNote s n
  | .remove n => removeNote s n
  | .move n b p => moveNote s n b p

/-- Apply a sequence of mutations in order. -/
def applyOps (s : NoteSequenceState) : List NSOp → NoteSequenceState
  | [] => s
  | op :: ops => applyOps (applyOp s op) ops

/-- The note list is sorted non-decreasingly by `start`. -/
def SortedByStart (l : List Note) : Prop :=
  l.Pairwise (fun a b => a.start ≤ b.start)

/-- Embedding of `Sequencer.lookahead` (src/sequencer.js line 29): 0.1 seconds. -/
def lookahead : ℚ := 1 / 10

/-- The `Sequencer` object's mutable state (src/sequencer.js): the playing
flag, the resume beat captured at `pause` (0 initially, matching the
`referenceBeat = 0` default that an undefined `resumeBeat` selects in
`copyStartingAt`), the next-beat cursor and the current timeline. -/
structure SchedulerState where
  playing : Bool
  resumeBeat : ℚ
  beatNumber : ℚ
  timeline : BeatTimeline
deriving DecidableEq

/-- Embedding of `Sequencer.updateBeat` (src/sequencer.js lines 74-80): set the cursor
to the new beat; if it is now `≥ 8`, reset it to `0` and shift the
timeline by 8 beats. -/
def updateBeat (s : SchedulerState) (newBeat : ℚ) : SchedulerState :=
  let s1 := { s with beatNumber := newBeat }
  if 8 ≤ s1.beatNumber then
    { s1 with beatNumber := 0, timeline := s1.timeline.copyTimeShifted 8 0 }
  else s1

/-- A tone submitted to the audio output: an oscillator's frequency and its
scheduled start and stop timestamps (src/sequencer.js lines 55-68). -/
structure ToneEvent where
  frequency : ℚ
  startTime : ℚ
  stopTime : ℚ
deriving DecidableEq

/-- Embedding of `Sequencer.scheduleNotes` (src/sequencer.js lines 44-70): one tick at
audio-clock time `currentTime`.  `scale` is the frequency source, `seq`
the shared note list.  Returns the submitted tone events and the state
after `updateBeat(endBeat)`. -/
def scheduleNotes (scale : ℤ → ℚ) (seq : List Note) (s : SchedulerState)
    (currentTime : ℚ) : List ToneEvent × SchedulerState :=
  let startBeat := s.beatNumber
  let endBeat := s.timeline.beatFor (currentTime + lookahead)
  let notes := getNotes startBeat endBeat seq
  let events := notes.map fun n =>
    { frequency := scale n.number
      startTime := s.timeline.timeFor n.start
      stopTime := s.timeline.timeFor (n.start + n.length) }
  (events, updateBeat s endBeat)

/-- The synchronous part of `Sequencer.play` (src/sequencer.js lines
87-104), at audio-clock time `currentTime`: a no-op when already playing;
otherwise the timeline is immediately re-anchored at
`(currentTime, resumeBeat)` and the deferred start is scheduled. -/
def playCall (s : SchedulerState) (currentTime : ℚ) : SchedulerState :=
  if s.playing then s
  else { s with timeline := s.timeline.copyStartingAt currentTime s.resumeBeat }

/-- The deferred part of `Sequencer.play` (`playFunction`, src/sequencer.js
lines 91-97): starts the periodic loop and sets the playing flag. -/
def playFire (s : SchedulerState) : SchedulerState :=
  { s with playing := true }

/-- The synchronous part of `Sequencer.pause` (src/sequencer.js lines
111-121), at audio-clock time `currentTime`: a no-op when not playing;
otherwise `resumeBeat` is captured immediately as
`timeline.beatFor(currentTime)` (line 120 runs at call time, not inside
the deferred `pauseFunction`) and the deferred stop is scheduled. -/
def pauseCall (s : SchedulerState) (currentTime : ℚ) : SchedulerState :=
  if s.playing = false then s
  else { s with resumeBeat := s.timeline.beatFor currentTime }

/-- The deferred part of `Sequencer.pause` (`pauseFunction`,
src/sequencer.js lines 115-118): clears the periodic loop and resets the
playing flag. -/
def pauseFire (s : SchedulerState) : SchedulerState :=
  { s with playing := false }

/-- Embedding of `Sequencer.changeTempo` (src/sequencer.js lines 146-148). -/
def changeTempo (s : SchedulerState) (newTempo : ℚ) : SchedulerState :=
  { s with timeline := s.timeline.withTempo newTempo s.beatNumber }

/-- Concrete note used in the tie-break examples: start 2, inserted first. -/
def noteA : Note := { start := 2, length := 1, number := 0, nid := 0 }

/-- Concrete note used in the tie-break examples: start 2, inserted second. -/
def noteB : Note := { start := 2, length := 1, number := 1, nid := 1 }

/-- Unfolding lemma: inserting into an empty list yields a singleton. -/
lemma addNoteList_nil (n : Note) : addNoteList n [] = [n] := rfl

/-- Unfolding lemma: the splice-at-findPosition insertion behaves as an
ordered insertion that stops at the first element with start ≥ the new
note's start. -/
lemma addNoteList_cons (n m : Note) (ms : List Note) :
    addNoteList n (m :: ms) =
      if n.start ≤ m.start then n :: m :: ms else m :: addNoteList n ms := by
  by_cases hnm : n.start ≤ m.start
  · simp [addNoteList, findPosition, insertAt, hnm]
  · simp [addNoteList, findPosition, insertAt, hnm]

/-- Membership in the result of an insertion. -/
lemma mem_addNoteList {x n : Note} {l : List Note} :
    x ∈ addNoteList n l ↔ x = n ∨ x ∈ l := by
  induction l with
  | nil => simp [addNoteList_nil]
  | cons m ms ih =>
    rw [addNoteList_cons]
    by_cases hnm : n.start ≤ m.start
    · simp [hnm]
    · simp only [if_neg hnm, List.mem_cons, ih]
      tauto

/-- Insertion at findPosition preserves sortedness by start. -/
lemma sorted_addNoteList {l : List Note} (n : Note) (h : SortedByStart l) :
    SortedByStart (addNoteList n l) := by
  unfold SortedByStart at h ⊢
  induction l with
  | nil => simp [addNoteList_nil]
  | cons m ms ih =>
    rcases List.pairwise_cons.mp h with ⟨hm, hms⟩
    rw [addNoteList_cons]
    by_cases hnm : n.start ≤ m.start
    · rw [if_pos hnm]
      refine List.pairwise_cons.mpr ⟨?_, h⟩
      intro x hx
      rcases List.mem_cons.mp hx with rfl | hx
      · exact hnm
      · exact le_trans hnm (hm x hx)
    · rw [if_neg hnm]
      refine List.pairwise_cons.mpr ⟨?_, ih hms⟩
      intro x hx
      rcases mem_addNoteList.mp hx with rfl | hx
      · exact le_of_not_le hnm
      · exact hm x hx

/-- Removal yields a sublist of the original list. -/
lemma removeNoteList_sublist (l : List Note) (note : Note) :
    List.Sublist (removeNoteList l note) l := by
  induction l with
  | nil => exact List.Sublist.refl []
  | cons n ns ih =>
    by_cases h : n = note
    · rw [removeNoteList, if_pos h]
      exact List.sublist_cons_self n ns
    · rw [removeNoteList, if_neg h]
      exact ih.cons₂ n

/-- Removal preserves sortedness by start. -/
lemma sorted_removeNoteList {l : List Note} (note : Note) (h : SortedByStart l) :
    SortedByStart (removeNoteList l note) :=
  h.sublist (removeNoteList_sublist l note)

/-- Removing an absent note leaves the list unchanged. -/
lemma removeNoteList_of_not_mem {l : List Note} {note : Note} (h : note ∉ l) :
    removeNoteList l note = l := by
  induction l with
  | nil => rfl
  | cons n ns ih =>
    have h1 : ¬ n = note := by
      rintro rfl
      exact h (List.mem_cons_self _ _)
    have h2 : note ∉ ns := fun hm => h (List.mem_cons_of_mem _ hm)
    rw [removeNoteList, if_neg h1, ih h2]

/-- Removing a present note splices out exactly its first occurrence. -/
lemma removeNoteList_of_mem {l : List Note} {note : Note} (h : note ∈ l) :
    ∃ l1 l2, l = l1 ++ note :: l2 ∧ note ∉ l1 ∧ removeNoteList l note = l1 ++ l2 := by
  induction l with
  | nil => cases h
  | cons n ns ih =>
    by_cases hn : n = note
    · subst hn
      exact ⟨[], ns, rfl, by simp, by rw [removeNoteList, if_pos rfl]; rfl⟩
    · have hm : note ∈ ns := by
        rcases List.mem_cons.mp h with h1 | h1
        · exact absurd h1.symm hn
        · exact h1
      rcases ih hm with ⟨l1, l2, he, hnotin, hrm⟩
      refine ⟨n :: l1, l2, by rw [he]; rfl, ?_, ?_⟩
      · intro hmem
        rcases List.mem_cons.mp hmem with h1 | h1
        · exact hn h1.symm
        · exact hnotin h1
      · rw [removeNoteList, if_neg hn, hrm]
        rfl

/-- The notes produced by moveNote: the mutated note (new start, new
pitch, same length and identity) inserted at its findPosition into the
list with the original note removed. -/
lemma moveNote_notes (s : NoteSequenceState) (note : Note) (b : ℚ) (p : ℤ) :
    (moveNote s note b p).notes =
      addNoteList { note with start := b, number := p } (removeNoteList s.notes note) := rfl

/-- moveNote invokes notifyListeners twice: once inside removeNote and once
at its own end. -/
lemma moveNote_notifyCount (s : NoteSequenceState) (note : Note) (b : ℚ) (p : ℤ) :
    (moveNote s note b p).notifyCount = s.notifyCount + 2 := rfl

/-- Every mutation preserves sortedness of the note list. -/
lemma sorted_applyOp (s : NoteSequenceState) (op : NSOp) (h : SortedByStart s.notes) :
    SortedByStart (applyOp s op).notes := by
  cases op with
  | add n => exact sorted_addNoteList n h
  | remove n => exact sorted_removeNoteList n h
  | move n b p =>
    rw [applyOp, moveNote_notes]
    exact sorted_addNoteList _ (sorted_removeNoteList n h)

/-- Any sequence of mutations preserves sortedness of the note list. -/
lemma sorted_applyOps (ops : List NSOp) :
    ∀ s : NoteSequenceState, SortedByStart s.notes → SortedByStart (applyOps s ops).notes := by
  induction ops with
  | nil => exact fun s h => h
  | cons op ops ih => exact fun s h => ih (applyOp s op) (sorted_applyOp s op h)

/-- Everything strictly before the insertion position has start strictly
below the probe beat: findPosition is the first index with start ≥ beat. -/
lemma start_lt_of_mem_take_findPosition {l : List Note} {b : ℚ} {x : Note}
    (hx : x ∈ l.take (findPosition b l)) : x.start < b := by
  induction l with
  | nil => simp [findPosition] at hx
  | cons n ns ih =>
    by_cases hb : b ≤ n.start
    · rw [findPosition, if_pos hb] at hx
      simp at hx
    · rw [findPosition, if_neg hb, List.take_succ_cons] at hx
      rcases List.mem_cons.mp hx with rfl | hx
      · exact lt_of_not_le hb
      · exact ih hx

/-- When every element has start ≥ beat the insertion position is the
front of the list. -/
lemma findPosition_eq_zero {b : ℚ} {l : List Note} (h : ∀ x ∈ l, b ≤ x.start) :
    findPosition b l = 0 := by
  cases l with
  | nil => rfl
  | cons n ns => rw [findPosition, if_pos (h n (List.mem_cons_self n ns))]

/-- On a sorted list, getNotes is exactly the filter keeping the notes
with startBeat ≤ start < endBeat, in list order. -/
lemma getNotes_eq_filter {l : List Note} (s e : ℚ) (h : SortedByStart l) :
    getNotes s e l = l.filter fun n => decide (s ≤ n.start ∧ n.start < e) := by
  unfold SortedByStart at h
  induction l with
  | nil => rfl
  | cons n ns ih =>
    rcases List.pairwise_cons.mp h with ⟨hn, hns⟩
    by_cases hs : s ≤ n.start
    · have hps : findPosition s (n :: ns) = 0 := by rw [findPosition, if_pos hs]
      by_cases he : e ≤ n.start
      · have hpe : findPosition e (n :: ns) = 0 := by rw [findPosition, if_pos he]
        rw [getNotes, hps, hpe]
        simp only [Nat.sub_zero, List.drop_zero, List.take_zero]
        symm
        rw [List.filter_eq_nil_iff]
        intro a ha
        rcases List.mem_cons.mp ha with rfl | ha
        · simp only [decide_eq_true_eq, not_and, not_lt]
          exact fun _ => he
        · simp only [decide_eq_true_eq, not_and, not_lt]
          exact fun _ => le_trans he (hn a ha)
      · push_neg at he
        have hpe : findPosition e (n :: ns) = findPosition e ns + 1 := by
          rw [findPosition, if_neg (not_le.mpr he)]
        have hzs : findPosition s ns = 0 :=
          findPosition_eq_zero fun x hx => le_trans hs (hn x hx)
        have ihns := ih hns
        rw [getNotes, hzs] at ihns
        simp only [Nat.sub_zero, List.drop_zero] at ihns
        rw [getNotes, hps, hpe]
        simp only [Nat.sub_zero, List.drop_zero, List.take_succ_cons]
        rw [ihns, List.filter_cons_of_pos (by simp [hs, he])]
    · push_neg at hs
      have hps : findPosition s (n :: ns) = findPosition s ns + 1 := by
        rw [findPosition, if_neg (not_le.mpr hs)]
      by_cases he : e ≤ n.start
      · have hpe : findPosition e (n :: ns) = 0 := by rw [findPosition, if_pos he]
        rw [getNotes, hps, hpe]
        simp only [Nat.zero_sub, List.take_zero]
        symm
        rw [List.filter_eq_nil_iff]
        intro a _
        simp only [decide_eq_true_eq, not_and, not_lt]
        intro hsa
        exact le_trans (le_trans he (le_of_lt hs)) hsa
      · push_neg at he
        have hpe : findPosition e (n :: ns) = findPosition e ns + 1 := by
          rw [findPosition, if_neg (not_le.mpr he)]
        rw [getNotes, hps, hpe, Nat.succ_sub_succ, List.drop_succ_cons,
          List.filter_cons_of_neg (by simp [not_le.mpr hs])]
        exact ih hns

/-- A zero-width window selects nothing, for any list. -/
lemma getNotes_self (s : ℚ) (l : List Note) : getNotes s s l = [] := by
  rw [getNotes, Nat.sub_self, List.take_zero]

/-- C1: for every BeatTimeline with beatsPerMinute > 0 and every beat b,
beatFor (timeFor b) = b — the timeline is an exact linear bijection between
beats and times over rational arithmetic. -/
theorem claim_C1_roundtrip (T : BeatTimeline) (b : ℚ) (h : 0 < T.beatsPerMinute) :
    T.beatFor (T.timeFor b) = b := by
  have hne : T.beatsPerMinute ≠ 0 := ne_of_gt h
  simp only [BeatTimeline.beatFor, BeatTimeline.timeFor]
  field_simp
  ring

/-- Witness for C1 at tempo 120, reference (3, 7), beat 5. -/
theorem claim_C1_witness :
    0 < (BeatTimeline.mk 120 3 7).beatsPerMinute ∧
    (BeatTimeline.mk 120 3 7).beatFor ((BeatTimeline.mk 120 3 7).timeFor 5) = 5 :=
  ⟨by norm_num, claim_C1_roundtrip (BeatTimeline.mk 120 3 7) 5 (by norm_num)⟩

/-- C3: withTempo(newBpm, fromBeat) produces a timeline with
beatsPerMinute = newBpm, referenceBeat = fromBeat and referenceTime =
timeFor(fromBeat) evaluated under the old tempo; consequently the new
timeline's timeFor(fromBeat) agrees with the old one (continuity at the
pivot beat). -/
theorem claim_C3_withTempo (T : BeatTimeline) (newBpm fromBeat : ℚ)
    (h : 0 < T.beatsPerMinute) (h2 : 0 < newBpm) :
    (T.withTempo newBpm fromBeat).beatsPerMinute = newBpm ∧
    (T.withTempo newBpm fromBeat).referenceBeat = fromBeat ∧
    (T.withTempo newBpm fromBeat).referenceTime = T.timeFor fromBeat ∧
    (T.withTempo newBpm fromBeat).timeFor fromBeat = T.timeFor fromBeat := by
  refine ⟨rfl, rfl, rfl, ?_⟩
  simp [BeatTimeline.withTempo, BeatTimeline.timeFor]

/-- Witness for C3 at tempo 144 retemposed to 90 from beat 4. -/
theorem claim_C3_witness :
    0 < (BeatTimeline.mk 144 0 2).beatsPerMinute ∧ 0 < (90 : ℚ) ∧
    ((BeatTimeline.mk 144 0 2).withTempo 90 4).timeFor 4 =
      (BeatTimeline.mk 144 0 2).timeFor 4 :=
  ⟨by norm_num, by norm_num,
    (claim_C3_withTempo (BeatTimeline.mk 144 0 2) 90 4 (by norm_num) (by norm_num)).2.2.2⟩

/-- C10: copyTimeShifted translates the whole beat-to-time mapping — for
every beat b, the shifted timeline's timeFor(b) equals the original
timeFor(b + beatDelay) + timeDelay, exactly over rational arithmetic. -/
theorem claim_C10_copyTimeShifted_timeFor (T : BeatTimeline) (d t b : ℚ)
    (h : 0 < T.beatsPerMinute) :
    (T.copyTimeShifted d t).timeFor b = T.timeFor (b + d) + t := by
  have hne : T.beatsPerMinute ≠ 0 := ne_of_gt h
  simp only [BeatTimeline.copyTimeShifted, BeatTimeline.timeFor]
  field_simp
  ring

/-- Witness for C10 at tempo 60, reference (0, 0), shift by (8, 1/2),
beat 3. -/
theorem claim_C10_witness :
    0 < (BeatTimeline.mk 60 0 0).beatsPerMinute ∧
    ((BeatTimeline.mk 60 0 0).copyTimeShifted 8 (1/2)).timeFor 3 =
      (BeatTimeline.mk 60 0 0).timeFor (3 + 8) + 1/2 :=
  ⟨by norm_num,
    claim_C10_copyTimeShifted_timeFor (BeatTimeline.mk 60 0 0) 8 (1/2) 3 (by norm_num)⟩

/-- Counterexample to C7 as stated: at tempo 60 with reference (0, 0) and
beatDelay 8, the shifted timeline places beat referenceBeat + 8 at time 16,
while the original places it at time 8 — copyTimeShifted does not fix the
instant of beat referenceBeat + beatDelay. -/
theorem claim_C7_counterexample :
    ((BeatTimeline.mk 60 0 0).copyTimeShifted 8 0).timeFor
        ((BeatTimeline.mk 60 0 0).referenceBeat + 8) ≠
      (BeatTimeline.mk 60 0 0).timeFor ((BeatTimeline.mk 60 0 0).referenceBeat + 8) := by
  norm_num [BeatTimeline.copyTimeShifted, BeatTimeline.timeFor]

/-- C7 amended: copyTimeShifted keeps referenceBeat and beatsPerMinute and
sets referenceTime = timeFor(referenceBeat + beatDelay) + timeDelay; hence
with timeDelay = 0 the shifted timeline places its (unchanged)
referenceBeat at the instant where the original placed
referenceBeat + beatDelay — the anchor beat is re-anchored one delay
later, which is what the loop wrap uses. -/
theorem claim_C7_amended (T : BeatTimeline) (d t : ℚ) (h : 0 < T.beatsPerMinute) :
    (T.copyTimeShifted d t).referenceTime = T.timeFor (T.referenceBeat + d) + t ∧
    (T.copyTimeShifted d t).referenceBeat = T.referenceBeat ∧
    (T.copyTimeShifted d t).beatsPerMinute = T.beatsPerMinute ∧
    (T.copyTimeShifted d 0).timeFor T.referenceBeat = T.timeFor (T.referenceBeat + d) := by
  refine ⟨rfl, rfl, rfl, ?_⟩
  simp [BeatTimeline.copyTimeShifted, BeatTimeline.timeFor]

/-- Witness for the amended C7 at tempo 60, reference (0, 0), beatDelay 8,
timeDelay 1/2. -/
theorem claim_C7_witness :
    0 < (BeatTimeline.mk 60 0 0).beatsPerMinute ∧
    ((BeatTimeline.mk 60 0 0).copyTimeShifted 8 (1/2)).referenceTime =
      (BeatTimeline.mk 60 0 0).timeFor ((BeatTimeline.mk 60 0 0).referenceBeat + 8) + 1/2 ∧
    ((BeatTimeline.mk 60 0 0).copyTimeShifted 8 0).timeFor
        (BeatTimeline.mk 60 0 0).referenceBeat =
      (BeatTimeline.mk 60 0 0).timeFor ((BeatTimeline.mk 60 0 0).referenceBeat + 8) :=
  ⟨by norm_num,
    (claim_C7_amended (BeatTimeline.mk 60 0 0) 8 (1/2) (by norm_num)).1,
    (claim_C7_amended (BeatTimeline.mk 60 0 0) 8 (1/2) (by norm_num)).2.2.2⟩

/-- C4: starting from the empty sequence, the note list is sorted
non-decreasingly by start after every sequence of addNote, removeNote and
moveNote operations; insertion splices at the first index whose note's
start is ≥ the new note's start, so everything placed before an inserted
note starts strictly earlier (the most recently inserted of equal-start
notes comes first); and concretely, inserting A at start 2 then B at
start 2 makes getNotes(2, 3) return [B, A]. -/
theorem claim_C4_sorted_tiebreak (ops : List NSOp) (l : List Note) (n x : Note)
    (hx : x ∈ l.take (findPosition n.start l)) :
    SortedByStart (applyOps createEmptyNoteSequence ops).notes ∧
    x.start < n.start ∧
    getNotes 2 3 (addNoteList noteB (addNoteList noteA [])) = [noteB, noteA] := by
  refine ⟨?_, start_lt_of_mem_take_findPosition hx, ?_⟩
  · refine sorted_applyOps ops createEmptyNoteSequence ?_
    unfold SortedByStart createEmptyNoteSequence
    exact List.Pairwise.nil
  · norm_num [getNotes, addNoteList, findPosition, insertAt, noteA, noteB]

/-- Witness for C4: the two-insertion history, and the probe beat 3 on the
singleton list [noteA]. -/
theorem claim_C4_witness :
    SortedByStart (applyOps createEmptyNoteSequence [NSOp.add noteA, NSOp.add noteB]).notes ∧
    noteA.start < (Note.mk 3 1 0 2).start ∧
    getNotes 2 3 (addNoteList noteB (addNoteList noteA [])) = [noteB, noteA] :=
  claim_C4_sorted_tiebreak [NSOp.add noteA, NSOp.add noteB] [noteA] (Note.mk 3 1 0 2) noteA
    (by norm_num [findPosition, noteA])

/-- C5: on a sorted note list, getNotes(startBeat, endBeat) returns exactly
the notes with startBeat ≤ start < endBeat, in container order (half-open
window), and a zero-width window always returns the empty list. -/
theorem claim_C5_getNotes (l : List Note) (s e : ℚ) (h : SortedByStart l) :
    getNotes s e l = (l.filter fun n => decide (s ≤ n.start ∧ n.start < e)) ∧
    getNotes s s l = [] :=
  ⟨getNotes_eq_filter s e h, getNotes_self s l⟩

/-- Witness for C5 on the sorted list [noteB, noteA] with window [2, 3). -/
theorem claim_C5_witness :
    (getNotes 2 3 [noteB, noteA] =
      ([noteB, noteA].filter fun n => decide ((2:ℚ) ≤ n.start ∧ n.start < 3)) ∧
    getNotes 2 2 [noteB, noteA] = []) :=
  claim_C5_getNotes [noteB, noteA] 2 3 (by norm_num [SortedByStart, noteA, noteB])

/-- Counterexample to C6 as stated: moving the single note of a sequence
invokes notifyListeners twice (once inside the internal removeNote, once
at the end of moveNote), so each registered listener is invoked twice per
moveNote call, not exactly once. -/
theorem claim_C6_counterexample :
    (moveNote (NoteSequenceState.mk [noteA] 0) noteA 3 5).notifyCount = 2 ∧ (2 : ℕ) ≠ 1 :=
  ⟨rfl, by norm_num⟩

/-- C6 amended: for a note present in the sequence, moveNote produces the
note with start = newStart and number = newPitch (same length and
identity) reinserted at the position determined by newStart per the
tie-break rule into the sequence with the original note removed, so the
sortedness invariant is restored — but each registered change listener is
invoked exactly twice per moveNote call (once from the internal removeNote
and once at the end), not once. -/
theorem claim_C6_amended (s : NoteSequenceState) (note : Note) (newStart : ℚ)
    (newPitch : ℤ) (hmem : note ∈ s.notes) (h : SortedByStart s.notes) :
    (moveNote s note newStart newPitch).notes =
      addNoteList { note with start := newStart, number := newPitch }
        (removeNoteList s.notes note) ∧
    SortedByStart (moveNote s note newStart newPitch).notes ∧
    (moveNote s note newStart newPitch).notifyCount = s.notifyCount + 2 := by
  refine ⟨moveNote_notes s note newStart newPitch, ?_,
    moveNote_notifyCount s note newStart newPitch⟩
  rw [moveNote_notes]
  exact sorted_addNoteList _ (sorted_removeNoteList note h)

/-- Witness for the amended C6: moving noteA from start 2 to start 3 with
pitch 5 in the singleton sequence. -/
theorem claim_C6_witness :
    (moveNote (NoteSequenceState.mk [noteA] 0) noteA 3 5).notes =
      addNoteList { noteA with start := 3, number := 5 }
        (removeNoteList [noteA] noteA) ∧
    SortedByStart (moveNote (NoteSequenceState.mk [noteA] 0) noteA 3 5).notes ∧
    (moveNote (NoteSequenceState.mk [noteA] 0) noteA 3 5).notifyCount = 0 + 2 :=
  claim_C6_amended (NoteSequenceState.mk [noteA] 0) noteA 3 5 (by simp)
    (by norm_num [SortedByStart])

/-- C9: removeNote splices out exactly the first occurrence of the note
when it is present, leaves the list completely unchanged when it is
absent, and notifies the registered listeners exactly once in both
cases. -/
theorem claim_C9_removeNote (s : NoteSequenceState) (note : Note) :
    (note ∈ s.notes →
      ∃ l1 l2, s.notes = l1 ++ note :: l2 ∧ note ∉ l1 ∧
        (removeNote s note).notes = l1 ++ l2) ∧
    (note ∉ s.notes → (removeNote s note).notes = s.notes) ∧
    (removeNote s note).notifyCount = s.notifyCount + 1 := by
  refine ⟨?_, ?_, rfl⟩
  · intro h
    exact removeNoteList_of_mem h
  · intro h
    show removeNoteList s.notes note = s.notes
    exact removeNoteList_of_not_mem h

/-- Witness for C9: removing the present noteA and the absent noteB from
the singleton sequence [noteA]. -/
theorem claim_C9_witness :
    (∃ l1 l2, ([noteA] : List Note) = l1 ++ noteA :: l2 ∧ noteA ∉ l1 ∧
      (removeNote (NoteSequenceState.mk [noteA] 0) noteA).notes = l1 ++ l2) ∧
    (removeNote (NoteSequenceState.mk [noteA] 0) noteB).notes = [noteA] ∧
    (removeNote (NoteSequenceState.mk [noteA] 0) noteA).notifyCount = 0 + 1 :=
  ⟨(claim_C9_removeNote (NoteSequenceState.mk [noteA] 0) noteA).1 (by simp),
   (claim_C9_removeNote (NoteSequenceState.mk [noteA] 0) noteB).2.1
     (by simp [noteA, noteB]),
   (claim_C9_removeNote (NoteSequenceState.mk [noteA] 0) noteA).2.2⟩

/-- Counterexample to C2 as stated: at tempo 60 with the cursor at beat 0,
a tick at audio time 8.9 computes windowEndBeat = 9 ≥ 8, and updateBeat
then sets the cursor to 0, not to 9 - 8 = 1 as the claim requires. -/
theorem claim_C2_counterexample :
    (scheduleNotes (fun _ => 440) []
        (SchedulerState.mk true 0 0 (BeatTimeline.mk 60 0 0)) (89/10)).2.beatNumber = 0 ∧
    (SchedulerState.mk true 0 0 (BeatTimeline.mk 60 0 0)).timeline.beatFor
        (89/10 + lookahead) - 8 = 1 ∧
    (0 : ℚ) ≠ 1 := by
  refine ⟨?_, ?_, by norm_num⟩
  · norm_num [scheduleNotes, updateBeat, BeatTimeline.beatFor, lookahead, getNotes,
      findPosition]
  · norm_num [BeatTimeline.beatFor, lookahead]

/-- C2 amended: after a scheduling tick the cursor equals
windowEndBeat = beatFor(currentTime + lookahead) and the timeline is kept
whenever windowEndBeat < 8; whenever windowEndBeat ≥ 8 the tick wraps by
resetting the cursor to 0 (discarding any fractional overshoot past the
loop boundary) and replacing the timeline with
copyTimeShifted(beatDelay = 8, timeDelay = 0). -/
theorem claim_C2_amended (scale : ℤ → ℚ) (seq : List Note) (s : SchedulerState)
    (now : ℚ) :
    (s.timeline.beatFor (now + lookahead) < 8 →
      (scheduleNotes scale seq s now).2.beatNumber = s.timeline.beatFor (now + lookahead) ∧
      (scheduleNotes scale seq s now).2.timeline = s.timeline) ∧
    (8 ≤ s.timeline.beatFor (now + lookahead) →
      (scheduleNotes scale seq s now).2.beatNumber = 0 ∧
      (scheduleNotes scale seq s now).2.timeline = s.timeline.copyTimeShifted 8 0) := by
  constructor
  · intro h
    simp [scheduleNotes, updateBeat, not_le.mpr h]
  · intro h
    simp [scheduleNotes, updateBeat, h]

/-- Witness for the amended C2: a tick at audio time 0 with tempo 60,
whose window end beat 1/10 is below the loop length. -/
theorem claim_C2_witness :
    (scheduleNotes (fun _ => 440) []
        (SchedulerState.mk true 0 0 (BeatTimeline.mk 60 0 0)) 0).2.beatNumber =
      (SchedulerState.mk true 0 0 (BeatTimeline.mk 60 0 0)).timeline.beatFor
        (0 + lookahead) ∧
    (scheduleNotes (fun _ => 440) []
        (SchedulerState.mk true 0 0 (BeatTimeline.mk 60 0 0)) 0).2.timeline =
      (SchedulerState.mk true 0 0 (BeatTimeline.mk 60 0 0)).timeline :=
  (claim_C2_amended (fun _ => 440) []
      (SchedulerState.mk true 0 0 (BeatTimeline.mk 60 0 0)) 0).1
    (by norm_num [BeatTimeline.beatFor, lookahead])

/-- Counterexample to C8 as stated: pause(5) called while playing at audio
time 0 (tempo 60, reference (0, 0)) captures resumeBeat = beatFor(0) = 0
at call time, whereas the claim's capture after the delay would read
beatFor(5) = 5. -/
theorem claim_C8_counterexample :
    (pauseFire (pauseCall (SchedulerState.mk true 0 0 (BeatTimeline.mk 60 0 0)) 0)).resumeBeat
        = 0 ∧
    (SchedulerState.mk true 0 0 (BeatTimeline.mk 60 0 0)).timeline.beatFor (0 + 5) = 5 ∧
    (0 : ℚ) ≠ 5 := by
  refine ⟨?_, ?_, by norm_num⟩
  · norm_num [pauseFire, pauseCall, BeatTimeline.beatFor]
  · norm_num [BeatTimeline.beatFor]

/-- C8 amended: pause is a no-op when not playing; when playing it captures
resumeBeat = timeline.beatFor(currentAudioTime) at call time (not after
the delay) and the deferred callback then stops the loop; and the scenario
play, pause, play re-anchors the timeline at the captured resumeBeat, so
playback resumes from the beat reached at the pause call — not from
beat 0 whenever some time elapsed between play and pause. -/
theorem claim_C8_amended (s : SchedulerState) (T : BeatTimeline) (t0 t1 t2 delay : ℚ)
    (hbpm : 0 < T.beatsPerMinute) (hne : t1 ≠ t0) :
    (s.playing = false → pauseCall s delay = s) ∧
    (s.playing = true →
      (pauseFire (pauseCall s t1)).resumeBeat = s.timeline.beatFor t1 ∧
      (pauseFire (pauseCall s t1)).playing = false) ∧
    ((playCall (pauseFire (pauseCall (playFire
          (playCall (SchedulerState.mk false 0 0 T) t0)) t1)) t2).timeline.beatFor t2 =
        (T.copyStartingAt t0 0).beatFor t1 ∧
      (T.copyStartingAt t0 0).beatFor t1 ≠ 0) := by
  refine ⟨?_, ?_, ?_, ?_⟩
  · intro h
    simp [pauseCall, h]
  · intro h
    simp [pauseCall, pauseFire, h]
  · simp [playCall, playFire, pauseCall, pauseFire, BeatTimeline.copyStartingAt,
      BeatTimeline.beatFor]
  · simp only [BeatTimeline.copyStartingAt, BeatTimeline.beatFor, zero_add]
    exact div_ne_zero (mul_ne_zero (sub_ne_zero.mpr hne) (ne_of_gt hbpm)) (by norm_num)

/-- Witness for the amended C8: tempo 60, play at time 0, pause at time 1,
play again at time 2; playback resumes from beat 1, not beat 0. -/
theorem claim_C8_witness :
    pauseCall (SchedulerState.mk false 0 0 (BeatTimeline.mk 60 0 0)) 0 =
      SchedulerState.mk false 0 0 (BeatTimeline.mk 60 0 0) ∧
    ((playCall (pauseFire (pauseCall (playFire
          (playCall (SchedulerState.mk false 0 0 (BeatTimeline.mk 60 0 0)) 0)) 1)) 2).timeline.beatFor 2 =
        ((BeatTimeline.mk 60 0 0).copyStartingAt 0 0).beatFor 1 ∧
      ((BeatTimeline.mk 60 0 0).copyStartingAt 0 0).beatFor 1 ≠ 0) :=
  ⟨(claim_C8_amended (SchedulerState.mk false 0 0 (BeatTimeline.mk 60 0 0))
      (BeatTimeline.mk 60 0 0) 0 1 2 0 (by norm_num) (by norm_num)).1 rfl,
   (claim_C8_amended (SchedulerState.mk false 0 0 (BeatTimeline.mk 60 0 0))
      (BeatTimeline.mk 60 0 0) 0 1 2 0 (by norm_num) (by norm_num)).2.2⟩

end Sequencer
